import Mathlib

/-!
Shallow embedding of `crates/vector_store/src/parsing.rs` (the chunk
extractor of the vector store) and proofs about it.

Modelling conventions:
* Rust `&str` values are `List Char`; byte offsets are UTF-8 byte offsets,
  so `str::len` is `utf8Len` and `str::get` is `strGet` (failing on
  offsets that are out of bounds or not on a character boundary).
* The external tree-sitter capability (parser + query cursor) is an
  oracle argument: `none` models `Parser::parse` returning `None`, and
  `some ms` models the finite sequence of query matches the cursor yields
  for the parsed tree.  `Parser::set_language(..).unwrap()` is treated as
  the infallible configuration of an external handle.
* `anyhow!` errors are their message strings; a Rust panic
  (`Option::unwrap` on `None`) is the `RunResult.panicked` outcome.
* `Path::to_str` / `Path::to_string_lossy` are the two fields of
  `RustPath`.
-/

namespace Parsing

/-- Rust string slices, as lists of characters. -/
abbrev Str := List Char

/-- Rust `Range<usize>` as produced by `Node::byte_range` (`start..stop`, the
upper end exclusive). -/
structure ByteRange where
  start : Nat
  stop : Nat
deriving DecidableEq

/-- UTF-8 byte length of a string (`str::len`). -/
def utf8Len : Str → Nat
  | [] => 0
  | c :: rest => c.utf8Size + utf8Len rest

/-- Number of characters preceding byte offset `p`, when `p` is a UTF-8
character boundary of the string; `none` otherwise (out of bounds, or
inside a multi-byte character).  This mirrors `str::is_char_boundary`. -/
def boundaryCharIdx : Str → Nat → Option Nat
  | _, 0 => some 0
  | [], _ + 1 => none
  | c :: rest, p + 1 =>
    if c.utf8Size ≤ p + 1 then (boundaryCharIdx rest (p + 1 - c.utf8Size)).map (· + 1)
    else none

/-- Embedding of `str::get(start..stop)`: the slice between two byte offsets when both
are character boundaries and `start ≤ stop`; `none` otherwise. -/
def strGet (content : Str) (r : ByteRange) : Option Str :=
  if r.start ≤ r.stop then
    match boundaryCharIdx content r.start, boundaryCharIdx content r.stop with
    | some i, some j => some ((content.drop i).take (j - i))
    | _, _ => none
  else none

/-- Fuelled worker for `str::replace`: replaces every non-overlapping
occurrence of `pat`, scanning left to right.  A fuel of `s.length`
suffices because every step consumes at least one character of `s`; the
patterns used in this file are never empty (Rust's empty-pattern
behaviour is not modelled). -/
def listReplaceFuel (pat rep : Str) : Nat → Str → Str
  | 0, s => s
  | _ + 1, [] => []
  | fuel + 1, c :: rest =>
    if pat ≠ [] ∧ pat.isPrefixOf (c :: rest) then
      rep ++ listReplaceFuel pat rep fuel ((c :: rest).drop pat.length)
    else
      c :: listReplaceFuel pat rep fuel rest

/-- Embedding of `str::replace s pat rep`. -/
def listReplace (s pat rep : Str) : Str := listReplaceFuel pat rep s.length s

/-- An ASCII apostrophe (the prompt templates quote the file path). -/
def squote : Char := Char.ofNat 39

def PATH_TOKEN : Str := "<path>".toList

def LANGUAGE_TOKEN : Str := "<language>".toList

def ITEM_TOKEN : Str := "<item>".toList

/-- The literal pattern actually passed as the third replacement in
`_parse_entire_file`: the bare substring `item`, not `<item>`. -/
def BARE_ITEM_TOKEN : Str := "item".toList

def NEWLINE : Str := "\n".toList

def SPACE : Str := " ".toList

/-- Template `CODE_CONTEXT_TEMPLATE` from the source:
the text between the quotes is
`The below code snippet is from file '<path>'\n\n`,
three backticks, `<language>\n<item>\n`, three backticks. -/
def CODE_CONTEXT_TEMPLATE : Str :=
  "The below code snippet is from file ".toList ++ [squote] ++ PATH_TOKEN ++ [squote]
    ++ "\n\n```".toList ++ LANGUAGE_TOKEN ++ "\n".toList ++ ITEM_TOKEN ++ "\n```".toList

/-- Template `ENTIRE_FILE_TEMPLATE` from the source (same shape, label reads
`snippet` rather than `code snippet`). -/
def ENTIRE_FILE_TEMPLATE : Str :=
  "The below snippet is from file ".toList ++ [squote] ++ PATH_TOKEN ++ [squote]
    ++ "\n\n```".toList ++ LANGUAGE_TOKEN ++ "\n".toList ++ ITEM_TOKEN ++ "\n```".toList

/-- Constant `PARSEABLE_ENTIRE_FILE_TYPES`. -/
def PARSEABLE_ENTIRE_FILE_TYPES : List Str :=
  ["TOML".toList, "YAML".toList, "JSON".toList, "CSS".toList]

/-- The structural-query bundle (`grammar.embedding_config`): the compiled
query itself is external and is not needed, since the matches it yields
are the oracle input of `parse_file`. -/
structure EmbeddingConfig where
  item_capture_ix : Nat
  name_capture_ix : Nat
  context_capture_ix : Option Nat
deriving DecidableEq

/-- A query capture: its capture index and its node's byte range. -/
structure Capture where
  index : Nat
  byte_range : ByteRange
deriving DecidableEq

/-- One query match: the captures it carries, in capture order. -/
structure QueryMatch where
  captures : List Capture
deriving DecidableEq

/-- Result of `language.grammar()`: only the `embedding_config` field is
consulted by the extractor (`ts_language` is an external handle). -/
structure Grammar where
  embedding_config : Option EmbeddingConfig
deriving DecidableEq

/-- The language descriptor: display name and optional grammar. -/
structure Language where
  name : Str
  grammar : Option Grammar
deriving DecidableEq

/-- A filesystem path: `to_str` is `none` exactly when the path is not
valid UTF-8, in which case `to_string_lossy` is the lossy rendering. -/
structure RustPath where
  to_str : Option Str
  to_string_lossy : Str
deriving DecidableEq

/-- The `Document` chunk produced by the extractor. -/
structure Document where
  name : Str
  range : ByteRange
  content : Str
  embedding : List Float

/-- Message of `anyhow!("no grammar for language")`. -/
def NO_GRAMMAR_MSG : Str := "no grammar for language".toList

/-- Message of `anyhow!("no embedding queries")`. -/
def NO_EMBEDDING_QUERIES_MSG : Str := "no embedding queries".toList

/-- Message of `anyhow!("parsing failed")`. -/
def PARSING_FAILED_MSG : Str := "parsing failed".toList

/-- Outcome of a `parse_file` call: a successful `Ok(documents)`, an
`anyhow` error carrying its message, or a Rust panic. -/
inductive RunResult where
  | ok : List Document → RunResult
  | err : Str → RunResult
  | panicked : RunResult

/-- The extractor.  Its two fields are reusable external handles
(`tree_sitter::Parser`, `tree_sitter::QueryCursor`); they carry no
semantic state, which the embedding records by giving them type `Unit`. -/
structure CodeContextRetriever where
  parser : Unit
  cursor : Unit

/-- Constructor `CodeContextRetriever::new`. -/
def CodeContextRetriever.new : CodeContextRetriever := { parser := (), cursor := () }

/-- Embedding of `_parse_entire_file`.  The source returns `Result` but always `Ok`,
so the embedding returns the list directly.  Note the third replacement
pattern is the bare substring `item` exactly as in the source. -/
def _parse_entire_file (relative_path : RustPath) (language_name : Str)
    (content : Str) : List Document :=
  let document_span :=
    listReplace
      (listReplace
        (listReplace ENTIRE_FILE_TEMPLATE PATH_TOKEN relative_path.to_string_lossy)
        LANGUAGE_TOKEN language_name)
      BARE_ITEM_TOKEN content
  [{ range := ⟨0, utf8Len content⟩,
     content := document_span,
     embedding := [],
     name := language_name }]

/-- The per-match mutable locals of the capture loop in `parse_file`:
`name`, `item`, `byte_range`, `context_spans`. -/
structure MatchState where
  name : List Str
  item : Option Str
  byte_range : Option ByteRange
  context_spans : List Str

/-- The locals at the top of each match iteration. -/
def initialMatchState : MatchState :=
  { name := [], item := none, byte_range := none, context_spans := [] }

/-- The trailing `if let Some(context_capture_ix) = ...` block of the
capture loop, which runs for every capture that was not skipped by the
dedup `continue` (including item-classified captures). -/
def applyContextCapture (cfg : EmbeddingConfig) (content : Str) (st : MatchState)
    (cap : Capture) : MatchState :=
  match cfg.context_capture_ix with
  | some context_capture_ix =>
    if cap.index = context_capture_ix then
      match strGet content cap.byte_range with
      | some context => { st with context_spans := st.context_spans ++ [context] }
      | none => st
    else st
  | none => st

/-- One iteration of the capture loop.  The `item`/`name` classification
is an `if`/`else if` chain (item wins when the indices coincide); a name
capture whose byte range is already in `name_ranges` hits `continue`,
skipping the context block as well; otherwise its range is pushed before
its text is sliced. -/
def stepCapture (cfg : EmbeddingConfig) (content : Str) (st : MatchState)
    (name_ranges : List ByteRange) (cap : Capture) : MatchState × List ByteRange :=
  if cap.index = cfg.item_capture_ix then
    (applyContextCapture cfg content
      { st with byte_range := some cap.byte_range, item := strGet content cap.byte_range }
      cap,
     name_ranges)
  else if cap.index = cfg.name_capture_ix then
    if cap.byte_range ∈ name_ranges then
      (st, name_ranges)
    else
      (applyContextCapture cfg content
        (match strGet content cap.byte_range with
         | some name_content => { st with name := st.name ++ [name_content] }
         | none => st)
        cap,
       name_ranges ++ [cap.byte_range])
  else
    (applyContextCapture cfg content st cap, name_ranges)

/-- The whole capture loop of one match, threading the file-level
`name_ranges` vector. -/
def processMatch (cfg : EmbeddingConfig) (content : Str) (name_ranges : List ByteRange)
    (mat : QueryMatch) : MatchState × List ByteRange :=
  mat.captures.foldl (fun acc cap => stepCapture cfg content acc.1 acc.2 cap)
    (initialMatchState, name_ranges)

/-- What the tail of one match iteration does with the collected state. -/
inductive EmitResult where
  | skip : EmitResult
  | emit : Document → EmitResult
  | panicked : EmitResult

/-- The `if let Some((item, byte_range)) = item.zip(byte_range)` tail of a
match iteration: emits a document when an item text was recorded and the
name list is non-empty; `relative_path.to_str().unwrap()` panics when the
path is not valid UTF-8. -/
def emitDocument (relative_path : RustPath) (language_name : Str)
    (st : MatchState) : EmitResult :=
  match st.item, st.byte_range with
  | some item, some byte_range =>
    if st.name = [] then EmitResult.skip
    else
      let body :=
        if st.context_spans = [] then item
        else List.intercalate NEWLINE st.context_spans ++ NEWLINE ++ item
      match relative_path.to_str with
      | none => EmitResult.panicked
      | some path_str =>
        EmitResult.emit
          { range := byte_range,
            content :=
              listReplace
                (listReplace
                  (listReplace CODE_CONTEXT_TEMPLATE PATH_TOKEN path_str)
                  LANGUAGE_TOKEN (language_name.map Char.toLower))
                ITEM_TOKEN body,
            embedding := [],
            name := List.intercalate SPACE st.name }
  | _, _ => EmitResult.skip

/-- The match loop of `parse_file`: processes matches in query order,
accumulating documents; `none` models a panic inside the loop. -/
def runMatches (cfg : EmbeddingConfig) (relative_path : RustPath)
    (content language_name : Str) :
    List QueryMatch → List ByteRange → List Document → Option (List Document)
  | [], _, documents => some documents
  | mat :: rest, name_ranges, documents =>
    match emitDocument relative_path language_name (processMatch cfg content name_ranges mat).1 with
    | EmitResult.panicked => none
    | EmitResult.emit doc =>
      runMatches cfg relative_path content language_name rest
        (processMatch cfg content name_ranges mat).2 (documents ++ [doc])
    | EmitResult.skip =>
      runMatches cfg relative_path content language_name rest
        (processMatch cfg content name_ranges mat).2 documents

/-- Embedding of `parse_file`.  The retriever is threaded through to mirror
`&mut self`; its handles carry no semantic state, so it is returned
unchanged.  `query_matches` is the tree-sitter oracle: `none` when
`Parser::parse` yields no tree, otherwise the matches the cursor yields. -/
def parse_file (self : CodeContextRetriever) (relative_path : RustPath) (content : Str)
    (language : Language) (query_matches : Option (List QueryMatch)) :
    RunResult × CodeContextRetriever :=
  let result : RunResult :=
    if language.name ∈ PARSEABLE_ENTIRE_FILE_TYPES then
      RunResult.ok (_parse_entire_file relative_path language.name content)
    else
      match language.grammar with
      | none => RunResult.err NO_GRAMMAR_MSG
      | some grammar =>
        match grammar.embedding_config with
        | none => RunResult.err NO_EMBEDDING_QUERIES_MSG
        | some embedding_config =>
          match query_matches with
          | none => RunResult.err PARSING_FAILED_MSG
          | some ms =>
            match runMatches embedding_config relative_path content language.name ms [] [] with
            | none => RunResult.panicked
            | some documents => RunResult.ok documents
  (result, self)

/-! Specification-side definitions, used to compare the code with the
specification's wording. -/

/-- The whole-file prompt as the specification words it: the body marker
`<item>` (not the bare substring `item`) is replaced by the raw content,
after the path and language substitutions. -/
def spec_entire_file_content (path_text language_name content : Str) : Str :=
  listReplace
    (listReplace
      (listReplace ENTIRE_FILE_TEMPLATE PATH_TOKEN path_text)
      LANGUAGE_TOKEN language_name)
    ITEM_TOKEN content

/-- The code-context prompt: path substituted, display name lowercased,
then the body in place of `<item>`.  This is both what the specification
words and what the structural flow of the code computes. -/
def spec_code_context_content (path_text language_name body : Str) : Str :=
  listReplace
    (listReplace
      (listReplace CODE_CONTEXT_TEMPLATE PATH_TOKEN path_text)
      LANGUAGE_TOKEN (language_name.map Char.toLower))
    ITEM_TOKEN body

/-- The match's designated item capture: the last capture carrying the
item capture index (later item captures overwrite earlier ones). -/
def lastItemCapture (cfg : EmbeddingConfig) (mat : QueryMatch) : Option Capture :=
  (mat.captures.filter (fun c => c.index == cfg.item_capture_ix)).getLast?

/-- The slice of the content at the designated item capture's range. -/
def lastItemCaptureSlice (cfg : EmbeddingConfig) (content : Str)
    (mat : QueryMatch) : Option Str :=
  match lastItemCapture cfg mat with
  | some cap => strGet content cap.byte_range
  | none => none

/-- The designated item capture's byte range. -/
def lastItemCaptureRange (cfg : EmbeddingConfig) (mat : QueryMatch) : Option ByteRange :=
  match lastItemCapture cfg mat with
  | some cap => some cap.byte_range
  | none => none

/-- Deletes from a match every capture that would be classified as a name
capture and has byte range `r`. -/
def removeConsumedNameCaptures (cfg : EmbeddingConfig) (r : ByteRange)
    (mat : QueryMatch) : QueryMatch :=
  ⟨mat.captures.filter (fun c =>
    !(decide (c.index ≠ cfg.item_capture_ix ∧ c.index = cfg.name_capture_ix
        ∧ c.byte_range = r)))⟩

/-- All chunks of a result list carry an empty embedding. -/
def embeddings_empty (documents : List Document) : Prop :=
  ∀ d ∈ documents, d.embedding = []

/-! Concrete fixtures for witnesses and counterexamples. -/

/-- A well-formed UTF-8 path. -/
def samplePath : RustPath := ⟨some ("a.rs".toList), "a.rs".toList⟩

/-- A path that is not valid UTF-8: `to_str` is `none`. -/
def badPath : RustPath := ⟨none, "bad".toList⟩

/-- A structural-query bundle with item index 0, name index 1, context
index 2. -/
def sampleCfg : EmbeddingConfig := ⟨0, 1, some 2⟩

def fooContent : Str := "foo".toList

/-- A display name outside the whole-file set. -/
def rustName : Str := "Rust".toList

/-- A match carrying only a name capture over bytes `0..3`. -/
def nameOnlyMatch : QueryMatch := ⟨[⟨1, ⟨0, 3⟩⟩]⟩

/-- A match carrying an item capture and a name capture, both over
bytes `0..3`. -/
def itemNameMatch : QueryMatch := ⟨[⟨0, ⟨0, 3⟩⟩, ⟨1, ⟨0, 3⟩⟩]⟩

/-- A match with an item capture whose range `0..10` cannot be sliced out
of a three-byte content, plus a valid name capture over `0..3`. -/
def invalidItemMatch : QueryMatch := ⟨[⟨0, ⟨0, 10⟩⟩, ⟨1, ⟨0, 3⟩⟩]⟩

/-- Valid item and name captures over `0..3` plus a context capture whose
range `0..10` cannot be sliced. -/
def invalidContextMatch : QueryMatch := ⟨[⟨0, ⟨0, 3⟩⟩, ⟨1, ⟨0, 3⟩⟩, ⟨2, ⟨0, 10⟩⟩]⟩

/-- A structural-query bundle without a context capture index. -/
def noContextCfg : EmbeddingConfig := ⟨0, 1, none⟩

/-! Helper lemmas about the capture loop. -/

/-- The trailing context block can only touch `context_spans`. -/
theorem applyContextCapture_fields (cfg : EmbeddingConfig) (content : Str)
    (st : MatchState) (cap : Capture) :
    ((applyContextCapture cfg content st cap).item = st.item)
  ∧ ((applyContextCapture cfg content st cap).byte_range = st.byte_range)
  ∧ ((applyContextCapture cfg content st cap).name = st.name) := by
  unfold applyContextCapture
  repeat' split
  all_goals exact ⟨rfl, rfl, rfl⟩

/-- A name capture whose range was already consumed hits `continue`:
the whole iteration is a no-op. -/
theorem stepCapture_consumed_name (cfg : EmbeddingConfig) (content : Str)
    (st : MatchState) (name_ranges : List ByteRange) (cap : Capture)
    (hitem : cap.index ≠ cfg.item_capture_ix) (hname : cap.index = cfg.name_capture_ix)
    (hmem : cap.byte_range ∈ name_ranges) :
    stepCapture cfg content st name_ranges cap = (st, name_ranges) := by
  unfold stepCapture
  rw [if_neg hitem, if_pos hname, if_pos hmem]

/-- A fresh name capture pushes its range (before slicing) and, when the
slice succeeds, appends its text. -/
theorem stepCapture_fresh_name (cfg : EmbeddingConfig) (content : Str)
    (st : MatchState) (name_ranges : List ByteRange) (cap : Capture)
    (hitem : cap.index ≠ cfg.item_capture_ix) (hname : cap.index = cfg.name_capture_ix)
    (hfresh : cap.byte_range ∉ name_ranges) :
    ((stepCapture cfg content st name_ranges cap).2 = name_ranges ++ [cap.byte_range])
  ∧ ((stepCapture cfg content st name_ranges cap).1.name
      = match strGet content cap.byte_range with
        | some t => st.name ++ [t]
        | none => st.name) := by
  unfold stepCapture
  rw [if_neg hitem, if_pos hname, if_neg hfresh]
  refine ⟨rfl, ?_⟩
  cases h : strGet content cap.byte_range with
  | none => exact (applyContextCapture_fields cfg content st cap).2.2
  | some t => exact (applyContextCapture_fields cfg content _ cap).2.2

/-- One capture step never removes a consumed range. -/
theorem mem_stepCapture_ranges (cfg : EmbeddingConfig) (content : Str)
    (st : MatchState) (name_ranges : List ByteRange) (cap : Capture) (r : ByteRange)
    (h : r ∈ name_ranges) : r ∈ (stepCapture cfg content st name_ranges cap).2 := by
  unfold stepCapture
  repeat' split
  all_goals first
    | exact h
    | exact List.mem_append_left _ h

/-- The capture loop of a match never removes a consumed range. -/
theorem mem_foldl_ranges (cfg : EmbeddingConfig) (content : Str) :
    ∀ (caps : List Capture) (st : MatchState) (name_ranges : List ByteRange)
      (r : ByteRange), r ∈ name_ranges →
    r ∈ (caps.foldl (fun acc cap => stepCapture cfg content acc.1 acc.2 cap)
          (st, name_ranges)).2 := by
  intro caps
  induction caps with
  | nil => intro st nr r h; exact h
  | cons c rest ih =>
    intro st nr r h
    rw [List.foldl_cons]
    exact ih (stepCapture cfg content st nr c).1 (stepCapture cfg content st nr c).2 r
      (mem_stepCapture_ranges cfg content st nr c r h)

/-- The `processMatch` loop never removes a consumed range. -/
theorem mem_processMatch_ranges (cfg : EmbeddingConfig) (content : Str)
    (name_ranges : List ByteRange) (mat : QueryMatch) (r : ByteRange)
    (h : r ∈ name_ranges) : r ∈ (processMatch cfg content name_ranges mat).2 :=
  mem_foldl_ranges cfg content mat.captures initialMatchState name_ranges r h

/-- A capture that is not item-classified leaves `item` and `byte_range`
alone. -/
theorem stepCapture_item_of_ne (cfg : EmbeddingConfig) (content : Str)
    (st : MatchState) (name_ranges : List ByteRange) (cap : Capture)
    (h : cap.index ≠ cfg.item_capture_ix) :
    ((stepCapture cfg content st name_ranges cap).1.item = st.item)
  ∧ ((stepCapture cfg content st name_ranges cap).1.byte_range = st.byte_range) := by
  unfold stepCapture
  rw [if_neg h]
  split
  · split
    · exact ⟨rfl, rfl⟩
    · cases hs : strGet content cap.byte_range <;>
        simp [hs, (applyContextCapture_fields cfg content _ cap).1,
          (applyContextCapture_fields cfg content _ cap).2.1]
  · exact ⟨(applyContextCapture_fields cfg content _ cap).1,
      (applyContextCapture_fields cfg content _ cap).2.1⟩

/-- An item-classified capture records the range and the slice, and does
not touch the consumed-range list. -/
theorem stepCapture_item_of_eq (cfg : EmbeddingConfig) (content : Str)
    (st : MatchState) (name_ranges : List ByteRange) (cap : Capture)
    (h : cap.index = cfg.item_capture_ix) :
    ((stepCapture cfg content st name_ranges cap).1.item = strGet content cap.byte_range)
  ∧ ((stepCapture cfg content st name_ranges cap).1.byte_range = some cap.byte_range)
  ∧ ((stepCapture cfg content st name_ranges cap).2 = name_ranges) := by
  unfold stepCapture
  rw [if_pos h]
  exact ⟨(applyContextCapture_fields cfg content _ cap).1,
    (applyContextCapture_fields cfg content _ cap).2.1, rfl⟩

/-- After the capture loop, `item` holds the content slice at the last
item-classified capture's range (later item captures overwrite earlier
ones) and `byte_range` holds that capture's range; when the match has no
item capture both fields keep their initial values. -/
theorem foldl_item_fields (cfg : EmbeddingConfig) (content : Str) (caps : List Capture) :
    ∀ (st : MatchState) (name_ranges : List ByteRange),
    ((caps.foldl (fun acc cap => stepCapture cfg content acc.1 acc.2 cap)
        (st, name_ranges)).1.item
      = match (caps.filter (fun c => c.index == cfg.item_capture_ix)).getLast? with
        | some cap => strGet content cap.byte_range
        | none => st.item)
  ∧ ((caps.foldl (fun acc cap => stepCapture cfg content acc.1 acc.2 cap)
        (st, name_ranges)).1.byte_range
      = match (caps.filter (fun c => c.index == cfg.item_capture_ix)).getLast? with
        | some cap => some cap.byte_range
        | none => st.byte_range) := by
  induction caps using List.reverseRecOn with
  | nil => intro st nr; exact ⟨rfl, rfl⟩
  | append_singleton l c ih =>
    intro st nr
    rw [List.foldl_append, List.filter_append]
    by_cases hc : c.index = cfg.item_capture_ix
    · have hfil : [c].filter (fun c => c.index == cfg.item_capture_ix) = [c] := by simp [hc]
      rw [hfil, List.getLast?_concat]
      constructor
      · exact (stepCapture_item_of_eq cfg content _ _ c hc).1
      · exact (stepCapture_item_of_eq cfg content _ _ c hc).2.1
    · have hfil : [c].filter (fun c => c.index == cfg.item_capture_ix) = [] := by simp [hc]
      rw [hfil, List.append_nil]
      constructor
      · rw [List.foldl_cons, List.foldl_nil]
        rw [(stepCapture_item_of_ne cfg content _ _ c hc).1]
        exact (ih st nr).1
      · rw [List.foldl_cons, List.foldl_nil]
        rw [(stepCapture_item_of_ne cfg content _ _ c hc).2]
        exact (ih st nr).2

/-- Projections of the previous lemma onto `processMatch`, phrased through the
specification-side `lastItemCapture*` functions. -/
theorem processMatch_item_fields (cfg : EmbeddingConfig) (content : Str)
    (name_ranges : List ByteRange) (mat : QueryMatch) :
    ((processMatch cfg content name_ranges mat).1.item = lastItemCaptureSlice cfg content mat)
  ∧ ((processMatch cfg content name_ranges mat).1.byte_range
      = lastItemCaptureRange cfg mat) := by
  have h := foldl_item_fields cfg content mat.captures initialMatchState name_ranges
  unfold processMatch
  refine ⟨?_, ?_⟩
  · rw [h.1]
    unfold lastItemCaptureSlice lastItemCapture
    cases (mat.captures.filter (fun c => c.index == cfg.item_capture_ix)).getLast? <;> rfl
  · rw [h.2]
    unfold lastItemCaptureRange lastItemCapture
    cases (mat.captures.filter (fun c => c.index == cfg.item_capture_ix)).getLast? <;> rfl

/-- In the loop's result, an item text implies an item byte range. -/
theorem processMatch_byte_range_isSome (cfg : EmbeddingConfig) (content : Str)
    (name_ranges : List ByteRange) (mat : QueryMatch)
    (h : (processMatch cfg content name_ranges mat).1.item.isSome) :
    (processMatch cfg content name_ranges mat).1.byte_range.isSome := by
  have h1 := (processMatch_item_fields cfg content name_ranges mat).1
  have h2 := (processMatch_item_fields cfg content name_ranges mat).2
  unfold lastItemCaptureSlice at h1
  unfold lastItemCaptureRange at h2
  cases hlast : lastItemCapture cfg mat with
  | none => rw [hlast] at h1; rw [h1] at h; exact absurd h (by simp)
  | some cap => rw [hlast] at h2; rw [h2]; rfl

/-- Dissection of a successful emission: everything the emitted document
carries, in terms of the loop state. -/
theorem emitDocument_emit_elim (relative_path : RustPath) (language_name : Str)
    (st : MatchState) (d : Document)
    (h : emitDocument relative_path language_name st = EmitResult.emit d) :
    ∃ item byte_range path_str,
      st.item = some item ∧ st.byte_range = some byte_range
      ∧ relative_path.to_str = some path_str ∧ st.name ≠ []
      ∧ d.range = byte_range
      ∧ d.name = List.intercalate SPACE st.name
      ∧ d.embedding = []
      ∧ d.content = spec_code_context_content path_str language_name
          (if st.context_spans = [] then item
           else List.intercalate NEWLINE st.context_spans ++ NEWLINE ++ item) := by
  obtain ⟨nm, it, br, ctx⟩ := st
  cases it with
  | none => exact absurd h (by simp [emitDocument])
  | some item =>
    cases br with
    | none => exact absurd h (by simp [emitDocument])
    | some byte_range =>
      simp only [emitDocument] at h
      by_cases hn : nm = []
      · rw [if_pos hn] at h; exact absurd h (by simp)
      · rw [if_neg hn] at h
        cases hp : relative_path.to_str with
        | none => rw [hp] at h; exact absurd h (by simp)
        | some path_str =>
          rw [hp] at h
          refine ⟨item, byte_range, path_str, rfl, rfl, rfl, hn, ?_⟩
          cases EmitResult.emit.inj h
          exact ⟨rfl, rfl, rfl, rfl⟩

/-- Converse: when an item text was recorded, the name list is non-empty
and the path is valid UTF-8, the match emits. -/
theorem emitDocument_emits (relative_path : RustPath) (language_name : Str)
    (st : MatchState) (item : Str) (byte_range : ByteRange) (path_str : Str)
    (hi : st.item = some item) (hb : st.byte_range = some byte_range)
    (hn : st.name ≠ []) (hp : relative_path.to_str = some path_str) :
    ∃ d, emitDocument relative_path language_name st = EmitResult.emit d := by
  obtain ⟨nm, it, br, ctx⟩ := st
  cases hi
  cases hb
  simp only [emitDocument]
  rw [if_neg hn, hp]
  exact ⟨_, rfl⟩

/-- Unfolding equation for the empty match list. -/
theorem runMatches_nil (cfg : EmbeddingConfig) (relative_path : RustPath)
    (content language_name : Str) (name_ranges : List ByteRange)
    (documents : List Document) :
    runMatches cfg relative_path content language_name [] name_ranges documents
      = some documents := rfl

/-- Unfolding equation for one match step. -/
theorem runMatches_cons (cfg : EmbeddingConfig) (relative_path : RustPath)
    (content language_name : Str) (mat : QueryMatch) (rest : List QueryMatch)
    (name_ranges : List ByteRange) (documents : List Document) :
    runMatches cfg relative_path content language_name (mat :: rest) name_ranges documents
      = match emitDocument relative_path language_name
          (processMatch cfg content name_ranges mat).1 with
        | EmitResult.panicked => none
        | EmitResult.emit doc =>
          runMatches cfg relative_path content language_name rest
            (processMatch cfg content name_ranges mat).2 (documents ++ [doc])
        | EmitResult.skip =>
          runMatches cfg relative_path content language_name rest
            (processMatch cfg content name_ranges mat).2 documents := rfl

/-- When a range is already consumed, deleting every name-classified
capture with that range from a capture list leaves the loop unchanged. -/
theorem foldl_removeConsumed (cfg : EmbeddingConfig) (content : Str) (r : ByteRange) :
    ∀ (caps : List Capture) (st : MatchState) (name_ranges : List ByteRange),
    r ∈ name_ranges →
    ((caps.filter (fun c =>
        !(decide (c.index ≠ cfg.item_capture_ix ∧ c.index = cfg.name_capture_ix
            ∧ c.byte_range = r)))).foldl
        (fun acc cap => stepCapture cfg content acc.1 acc.2 cap) (st, name_ranges))
      = caps.foldl (fun acc cap => stepCapture cfg content acc.1 acc.2 cap)
          (st, name_ranges) := by
  intro caps
  induction caps with
  | nil => intro st nr _; rfl
  | cons c rest ih =>
    intro st nr hmem
    by_cases hdel : c.index ≠ cfg.item_capture_ix ∧ c.index = cfg.name_capture_ix
        ∧ c.byte_range = r
    · rw [List.filter_cons_of_neg (by simp [decide_eq_true hdel])]
      have hstep : stepCapture cfg content st nr c = (st, nr) :=
        stepCapture_consumed_name cfg content st nr c hdel.1 hdel.2.1
          (hdel.2.2 ▸ hmem)
      rw [List.foldl_cons, hstep]
      exact ih st nr hmem
    · rw [List.filter_cons_of_pos (by simp [decide_eq_false hdel])]
      rw [List.foldl_cons, List.foldl_cons]
      exact ih (stepCapture cfg content st nr c).1 (stepCapture cfg content st nr c).2
        (mem_stepCapture_ranges cfg content st nr c r hmem)

/-- The previous lemma, lifted to the whole remainder of the file: with a
consumed range, the matches with those captures removed produce the same
output as the original matches. -/
theorem runMatches_removeConsumed (cfg : EmbeddingConfig) (relative_path : RustPath)
    (content language_name : Str) (r : ByteRange) :
    ∀ (ms : List QueryMatch) (name_ranges : List ByteRange)
      (documents : List Document), r ∈ name_ranges →
    runMatches cfg relative_path content language_name
        (ms.map (removeConsumedNameCaptures cfg r)) name_ranges documents
      = runMatches cfg relative_path content language_name ms name_ranges documents := by
  intro ms
  induction ms with
  | nil => intro nr docs _; rfl
  | cons m rest ih =>
    intro nr docs hmem
    rw [List.map_cons]
    have hpm : processMatch cfg content nr (removeConsumedNameCaptures cfg r m)
        = processMatch cfg content nr m := by
      unfold processMatch removeConsumedNameCaptures
      exact foldl_removeConsumed cfg content r m.captures initialMatchState nr hmem
    rw [runMatches_cons, runMatches_cons, hpm]
    cases emitDocument relative_path language_name (processMatch cfg content nr m).1 with
    | panicked => rfl
    | emit doc => exact ih _ _ (mem_processMatch_ranges cfg content nr m r hmem)
    | skip => exact ih _ _ (mem_processMatch_ranges cfg content nr m r hmem)

/-- When the emission condition fails, the iteration tail is a no-op. -/
theorem emitDocument_skip_of (relative_path : RustPath) (language_name : Str)
    (st : MatchState)
    (h : st.item = none ∨ st.byte_range = none ∨ st.name = []) :
    emitDocument relative_path language_name st = EmitResult.skip := by
  obtain ⟨nm, it, br, ctx⟩ := st
  cases it with
  | none => cases br <;> rfl
  | some i =>
    cases br with
    | none => rfl
    | some b =>
      rcases h with h | h | h
      · exact absurd h (by simp)
      · exact absurd h (by simp)
      · simp only [emitDocument]
        rw [if_pos h]

/-- When the emission condition holds but the path is not valid UTF-8,
`to_str().unwrap()` panics. -/
theorem emitDocument_panics (relative_path : RustPath) (language_name : Str)
    (st : MatchState) (item : Str) (byte_range : ByteRange)
    (hi : st.item = some item) (hb : st.byte_range = some byte_range)
    (hn : st.name ≠ []) (hp : relative_path.to_str = none) :
    emitDocument relative_path language_name st = EmitResult.panicked := by
  obtain ⟨nm, it, br, ctx⟩ := st
  cases hi
  cases hb
  simp only [emitDocument]
  rw [if_neg hn, hp]

/-- Every document the match loop adds carries an empty embedding. -/
theorem runMatches_embeddings (cfg : EmbeddingConfig) (relative_path : RustPath)
    (content language_name : Str) :
    ∀ (ms : List QueryMatch) (name_ranges : List ByteRange)
      (acc documents : List Document),
    runMatches cfg relative_path content language_name ms name_ranges acc
      = some documents →
    embeddings_empty acc → embeddings_empty documents := by
  intro ms
  induction ms with
  | nil =>
    intro nr acc docs h hacc
    rw [runMatches_nil] at h
    cases Option.some.inj h
    exact hacc
  | cons m rest ih =>
    intro nr acc docs h hacc
    rw [runMatches_cons] at h
    cases hemit : emitDocument relative_path language_name
        (processMatch cfg content nr m).1 with
    | panicked => rw [hemit] at h; exact absurd h (by simp)
    | emit doc =>
      rw [hemit] at h
      refine ih _ _ _ h ?_
      intro d hd
      rcases List.mem_append.1 hd with hd | hd
      · exact hacc d hd
      · obtain ⟨_, _, _, _, _, _, _, _, _, hembed, _⟩ :=
          emitDocument_emit_elim _ _ _ _ hemit
        rw [List.mem_singleton] at hd
        subst hd
        exact hembed
    | skip =>
      rw [hemit] at h
      exact ih _ _ _ h hacc

/-- The two runs of the match loop on the same inputs, one with a
non-UTF-8 path and one with a valid path: the valid-path run always
succeeds and appends some list of documents, and the non-UTF-8 run
panics exactly when that list is non-empty. -/
theorem runMatches_path_rel (cfg : EmbeddingConfig) (content language_name : Str)
    (p₁ p₂ : RustPath) (path_str : Str)
    (h₁ : p₁.to_str = none) (h₂ : p₂.to_str = some path_str) :
    ∀ (ms : List QueryMatch) (name_ranges : List ByteRange)
      (acc₁ acc₂ : List Document),
    ∃ extra,
      runMatches cfg p₂ content language_name ms name_ranges acc₂
        = some (acc₂ ++ extra)
      ∧ (extra = [] →
          runMatches cfg p₁ content language_name ms name_ranges acc₁ = some acc₁)
      ∧ (extra ≠ [] →
          runMatches cfg p₁ content language_name ms name_ranges acc₁ = none) := by
  intro ms
  induction ms with
  | nil =>
    intro nr a1 a2
    refine ⟨[], ?_, fun _ => rfl, fun hc => absurd rfl hc⟩
    rw [runMatches_nil, List.append_nil]
  | cons m rest ih =>
    intro nr a1 a2
    by_cases hcond : (processMatch cfg content nr m).1.item = none
        ∨ (processMatch cfg content nr m).1.byte_range = none
        ∨ (processMatch cfg content nr m).1.name = []
    · have hs₁ := emitDocument_skip_of p₁ language_name _ hcond
      have hs₂ := emitDocument_skip_of p₂ language_name _ hcond
      rw [runMatches_cons, runMatches_cons, hs₁, hs₂]
      exact ih (processMatch cfg content nr m).2 a1 a2
    · push_neg at hcond
      obtain ⟨hit, hbr, hnm⟩ := hcond
      obtain ⟨item, hit⟩ := Option.ne_none_iff_exists'.1 hit
      obtain ⟨byte_range, hbr⟩ := Option.ne_none_iff_exists'.1 hbr
      obtain ⟨d, hd⟩ := emitDocument_emits p₂ language_name _ item byte_range path_str
        hit hbr hnm h₂
      have hpan := emitDocument_panics p₁ language_name _ item byte_range hit hbr hnm h₁
      rw [runMatches_cons, runMatches_cons, hd, hpan]
      obtain ⟨extra', hgood, _, _⟩ := ih (processMatch cfg content nr m).2 a1 (a2 ++ [d])
      refine ⟨d :: extra', ?_, ?_, fun _ => rfl⟩
      · show runMatches cfg p₂ content language_name rest
          (processMatch cfg content nr m).2 (a2 ++ [d]) = some (a2 ++ d :: extra')
        rw [hgood]
        simp
      · intro habs
        exact absurd habs (List.cons_ne_nil d extra')

/-! Claim theorems. -/

/-- C1: the claim says the whole-file prompt is the template with the
snippet body position (`<item>`) replaced by the raw content verbatim.
The code instead replaces the bare substring `item`, so the angle
brackets survive: for path `a.toml`, display name `TOML` and content `x`
the produced prompt ends in a `<x>` line, which differs from the prompt
the claim describes (ending in an `x` line).  This theorem evaluates the
code at that input and separates it from the claimed prompt. -/
theorem claim1_whole_file_template_typo :
    ((_parse_entire_file ⟨some ("a.toml".toList), "a.toml".toList⟩ ("TOML".toList)
        ("x".toList)).map Document.content
      = ["The below snippet is from file ".toList ++ [squote] ++ "a.toml".toList
          ++ [squote] ++ "\n\n```TOML\n<x>\n```".toList])
  ∧ ("The below snippet is from file ".toList ++ [squote] ++ "a.toml".toList
      ++ [squote] ++ "\n\n```TOML\n<x>\n```".toList)
      ≠ spec_entire_file_content ("a.toml".toList) ("TOML".toList) ("x".toList) :=
  ⟨rfl, by decide⟩

/-- C5: for a language whose display name is in the whole-file set,
`parse_file` dispatches to the whole-file flow regardless of the grammar
and of the tree-sitter oracle (both are universally quantified and never
consulted), cannot fail, and returns exactly one chunk whose range is
`[0, utf8Len content)` and whose name is the display name. -/
theorem claim5_whole_file_dispatch (self : CodeContextRetriever) (relative_path : RustPath)
    (content : Str) (language : Language) (query_matches : Option (List QueryMatch))
    (h : language.name ∈ PARSEABLE_ENTIRE_FILE_TYPES) :
    (parse_file self relative_path content language query_matches).1
      = RunResult.ok (_parse_entire_file relative_path language.name content)
  ∧ ∃ d, _parse_entire_file relative_path language.name content = [d]
      ∧ d.range = ⟨0, utf8Len content⟩ ∧ d.name = language.name := by
  constructor
  · simp [parse_file, h]
  · exact ⟨_, rfl, rfl, rfl⟩

/-- Witness for C5 at a concrete TOML input. -/
theorem claim5_whole_file_dispatch_witness :
    (parse_file CodeContextRetriever.new ⟨some ("a.toml".toList), "a.toml".toList⟩
        ("x".toList) ⟨"TOML".toList, none⟩ none).1
      = RunResult.ok (_parse_entire_file ⟨some ("a.toml".toList), "a.toml".toList⟩
          ("TOML".toList) ("x".toList)) :=
  (claim5_whole_file_dispatch CodeContextRetriever.new
    ⟨some ("a.toml".toList), "a.toml".toList⟩ ("x".toList)
    ⟨"TOML".toList, none⟩ none (by decide)).1

/-- C6: for a language outside the whole-file set, a missing grammar, a
grammar without a structural-query bundle, and a parser that produces no
tree each surface their own error (the three `anyhow!` messages), the
three errors are pairwise distinct, and a failing call returns no
chunks. -/
theorem claim6_error_kinds (self : CodeContextRetriever) (relative_path : RustPath)
    (content : Str) (lname : Str) (h : lname ∉ PARSEABLE_ENTIRE_FILE_TYPES) :
    (∀ query_matches,
      (parse_file self relative_path content ⟨lname, none⟩ query_matches).1
        = RunResult.err NO_GRAMMAR_MSG)
  ∧ (∀ query_matches,
      (parse_file self relative_path content ⟨lname, some ⟨none⟩⟩ query_matches).1
        = RunResult.err NO_EMBEDDING_QUERIES_MSG)
  ∧ (∀ cfg : EmbeddingConfig,
      (parse_file self relative_path content ⟨lname, some ⟨some cfg⟩⟩ none).1
        = RunResult.err PARSING_FAILED_MSG)
  ∧ NO_GRAMMAR_MSG ≠ NO_EMBEDDING_QUERIES_MSG
  ∧ NO_GRAMMAR_MSG ≠ PARSING_FAILED_MSG
  ∧ NO_EMBEDDING_QUERIES_MSG ≠ PARSING_FAILED_MSG
  ∧ ∀ (language : Language) (query_matches : Option (List QueryMatch)) (e : Str)
      (docs : List Document),
      (parse_file self relative_path content language query_matches).1 = RunResult.err e →
      (parse_file self relative_path content language query_matches).1 ≠ RunResult.ok docs := by
  refine ⟨?_, ?_, ?_, by decide, by decide, by decide, ?_⟩
  · intro q; simp [parse_file, h]
  · intro q; simp [parse_file, h]
  · intro cfg; simp [parse_file, h]
  · intro language q e docs he
    rw [he]
    exact fun hh => RunResult.noConfusion hh

/-- Witness for C6: a grammarless language named `Rust` gets the
missing-grammar message. -/
theorem claim6_error_kinds_witness :
    (parse_file CodeContextRetriever.new samplePath fooContent ⟨rustName, none⟩ none).1
      = RunResult.err NO_GRAMMAR_MSG :=
  (claim6_error_kinds CodeContextRetriever.new samplePath fooContent rustName
    (by decide)).1 none

/-- C7: a second call with the same arguments (starting from the
retriever state the first call returned) yields the same result, and the
structural flow seeds the consumed-name-range sequence empty on each
call: the match loop is entered with `name_ranges = []`. -/
theorem claim7_determinism (self : CodeContextRetriever) (relative_path : RustPath)
    (content : Str) (language : Language) (query_matches : Option (List QueryMatch)) :
    (parse_file (parse_file self relative_path content language query_matches).2
        relative_path content language query_matches).1
      = (parse_file self relative_path content language query_matches).1
  ∧ ∀ (lname : Str) (cfg : EmbeddingConfig) (ms : List QueryMatch),
      lname ∉ PARSEABLE_ENTIRE_FILE_TYPES →
      (parse_file self relative_path content ⟨lname, some ⟨some cfg⟩⟩ (some ms)).1
        = match runMatches cfg relative_path content lname ms [] [] with
          | none => RunResult.panicked
          | some documents => RunResult.ok documents := by
  constructor
  · rfl
  · intro lname cfg ms h
    simp [parse_file, h]

/-- C2 counterexample: the file has two matches whose name captures share
the byte range `0..3`, whose text is `foo`.  The first match has no item
capture, so it emits no chunk; the second match's name capture is
deduplicated away, so it emits no chunk either.  No emitted chunk's name
includes `foo`, refuting the claimed "exactly one". -/
theorem claim2_counterexample :
    (strGet fooContent ⟨0, 3⟩ = some ("foo".toList))
  ∧ ((parse_file CodeContextRetriever.new samplePath fooContent
        ⟨rustName, some ⟨some noContextCfg⟩⟩ (some [nameOnlyMatch, itemNameMatch])).1
      = RunResult.ok []) :=
  ⟨rfl, rfl⟩

/-- C2 (amended): a later name capture whose byte range was already
consumed is skipped whole — it adds no text and is not reconsidered (the
iteration is a no-op, and deleting all such captures from the rest of the
file leaves the output unchanged); the name text of a shared range is
collected only by the first match that encounters it while unconsumed,
which appends the text and records the range. -/
theorem claim2_name_dedup (cfg : EmbeddingConfig) (content : Str) (r : ByteRange) :
    (∀ (st : MatchState) (name_ranges : List ByteRange) (cap : Capture),
      cap.byte_range ∈ name_ranges → cap.index ≠ cfg.item_capture_ix →
      cap.index = cfg.name_capture_ix →
      stepCapture cfg content st name_ranges cap = (st, name_ranges))
  ∧ (∀ (st : MatchState) (name_ranges : List ByteRange) (cap : Capture) (t : Str),
      cap.byte_range ∉ name_ranges → cap.index ≠ cfg.item_capture_ix →
      cap.index = cfg.name_capture_ix → strGet content cap.byte_range = some t →
      ((stepCapture cfg content st name_ranges cap).1.name = st.name ++ [t]
        ∧ (stepCapture cfg content st name_ranges cap).2
            = name_ranges ++ [cap.byte_range]))
  ∧ (∀ (relative_path : RustPath) (language_name : Str) (ms : List QueryMatch)
      (name_ranges : List ByteRange) (documents : List Document), r ∈ name_ranges →
      runMatches cfg relative_path content language_name
          (ms.map (removeConsumedNameCaptures cfg r)) name_ranges documents
        = runMatches cfg relative_path content language_name ms name_ranges documents) := by
  refine ⟨?_, ?_, ?_⟩
  · intro st nr cap hmem hitem hname
    exact stepCapture_consumed_name cfg content st nr cap hitem hname hmem
  · intro st nr cap t hfresh hitem hname ht
    have h := stepCapture_fresh_name cfg content st nr cap hitem hname hfresh
    refine ⟨?_, h.1⟩
    rw [h.2, ht]
  · intro relative_path language_name ms nr docs hmem
    exact runMatches_removeConsumed cfg relative_path content language_name r
      ms nr docs hmem

/-- Witness for C2 at a concrete consumed name capture. -/
theorem claim2_name_dedup_witness :
    stepCapture noContextCfg fooContent initialMatchState [⟨0, 3⟩] ⟨1, ⟨0, 3⟩⟩
      = (initialMatchState, [⟨0, 3⟩]) :=
  (claim2_name_dedup noContextCfg fooContent ⟨0, 3⟩).1 initialMatchState [⟨0, 3⟩]
    ⟨1, ⟨0, 3⟩⟩ (by decide) (by decide) rfl

/-- C3 counterexample: the match has an item capture (range `0..10`) and
a surviving — fresh, never deduplicated — name capture whose text `foo`
is sliced successfully, yet no chunk is emitted, because the item
capture's range cannot be sliced out of the three-byte content.  This
refutes the claimed "emitted if and only if the match has an item capture
and at least one surviving name capture". -/
theorem claim3_counterexample :
    (lastItemCapture noContextCfg invalidItemMatch = some ⟨0, ⟨0, 10⟩⟩)
  ∧ (strGet fooContent ⟨0, 3⟩ = some ("foo".toList))
  ∧ ((parse_file CodeContextRetriever.new samplePath fooContent
        ⟨rustName, some ⟨some noContextCfg⟩⟩ (some [invalidItemMatch])).1
      = RunResult.ok []) :=
  ⟨rfl, rfl, rfl⟩

/-- C3 (amended): a match emits a chunk iff an item text was recorded
(the content slice at the last item capture's range succeeded) and at
least one name text survived deduplication and slicing; the recorded item
text is exactly the slice at the designated item capture, and an emitted
chunk's name is the surviving name texts joined by a single space. -/
theorem claim3_emission_rule (cfg : EmbeddingConfig) (content : Str)
    (name_ranges : List ByteRange) (mat : QueryMatch) (relative_path : RustPath)
    (path_str : Str) (language_name : Str)
    (hp : relative_path.to_str = some path_str) :
    ((∃ d, emitDocument relative_path language_name
        (processMatch cfg content name_ranges mat).1 = EmitResult.emit d)
      ↔ ((processMatch cfg content name_ranges mat).1.item.isSome
          ∧ (processMatch cfg content name_ranges mat).1.name ≠ []))
  ∧ ((processMatch cfg content name_ranges mat).1.item
      = lastItemCaptureSlice cfg content mat)
  ∧ (∀ d, emitDocument relative_path language_name
        (processMatch cfg content name_ranges mat).1 = EmitResult.emit d →
      d.name = List.intercalate SPACE (processMatch cfg content name_ranges mat).1.name) := by
  refine ⟨⟨?_, ?_⟩, (processMatch_item_fields cfg content name_ranges mat).1, ?_⟩
  · rintro ⟨d, hd⟩
    obtain ⟨item, byte_range, ps, hi, hb, hps, hn, hr, hname, hembed, hcontent⟩ :=
      emitDocument_emit_elim _ _ _ _ hd
    exact ⟨Option.isSome_iff_exists.2 ⟨item, hi⟩, hn⟩
  · rintro ⟨hsome, hn⟩
    obtain ⟨item, hi⟩ := Option.isSome_iff_exists.1 hsome
    have hbs := processMatch_byte_range_isSome cfg content name_ranges mat hsome
    obtain ⟨byte_range, hb⟩ := Option.isSome_iff_exists.1 hbs
    exact emitDocument_emits relative_path language_name _ item byte_range path_str
      hi hb hn hp
  · intro d hd
    obtain ⟨item, byte_range, ps, hi, hb, hps, hn, hr, hname, hembed, hcontent⟩ :=
      emitDocument_emit_elim _ _ _ _ hd
    exact hname

/-- Witness for C3: the recorded item text at a concrete match. -/
theorem claim3_emission_rule_witness :
    (processMatch noContextCfg fooContent [] itemNameMatch).1.item
      = lastItemCaptureSlice noContextCfg fooContent itemNameMatch :=
  (claim3_emission_rule noContextCfg fooContent [] itemNameMatch samplePath
    ("a.rs".toList) rustName rfl).2.1

/-- C4 counterexample: the match has a context capture (range `0..10`),
but its slice fails, so the emitted chunk's body is the item text `foo`
verbatim — not, as the claim's "when context captures exist" arm
predicts, the empty context joined by newline followed by a newline and
the item text (`\nfoo`). -/
theorem claim4_counterexample :
    ((parse_file CodeContextRetriever.new samplePath fooContent
        ⟨rustName, some ⟨some sampleCfg⟩⟩ (some [invalidContextMatch])).1
      = RunResult.ok [⟨"foo".toList, ⟨0, 3⟩,
          spec_code_context_content ("a.rs".toList) rustName ("foo".toList), []⟩])
  ∧ spec_code_context_content ("a.rs".toList) rustName ("foo".toList)
      ≠ spec_code_context_content ("a.rs".toList) rustName (NEWLINE ++ "foo".toList) :=
  ⟨rfl, by decide⟩

/-- C4 (amended): an emitted chunk's range is exactly the designated item
capture's byte range (not extended by name or context captures), and its
content is the code-context template with the path text, the display name
lowercased, and a body that is the item text verbatim when no context
texts were sliced, or the context texts joined by newline, a newline, and
the item text when at least one was. -/
theorem claim4_chunk_range_content (cfg : EmbeddingConfig) (content : Str)
    (name_ranges : List ByteRange) (mat : QueryMatch) (relative_path : RustPath)
    (path_str language_name : Str) (d : Document)
    (hp : relative_path.to_str = some path_str)
    (hd : emitDocument relative_path language_name
        (processMatch cfg content name_ranges mat).1 = EmitResult.emit d) :
    (lastItemCaptureRange cfg mat = some d.range)
  ∧ (∃ item, (processMatch cfg content name_ranges mat).1.item = some item
      ∧ d.content = spec_code_context_content path_str language_name
          (if (processMatch cfg content name_ranges mat).1.context_spans = [] then item
           else List.intercalate NEWLINE
               (processMatch cfg content name_ranges mat).1.context_spans
             ++ NEWLINE ++ item)) := by
  obtain ⟨item, byte_range, ps, hi, hb, hps, hn, hr, hname, hembed, hcontent⟩ :=
    emitDocument_emit_elim _ _ _ _ hd
  have hps' : ps = path_str := by
    rw [hp] at hps
    exact (Option.some.inj hps).symm
  subst hps'
  constructor
  · rw [← (processMatch_item_fields cfg content name_ranges mat).2, hb, hr]
  · exact ⟨item, hi, hcontent⟩

/-- Witness for C4: the emitted range at a concrete match. -/
theorem claim4_chunk_range_content_witness :
    lastItemCaptureRange sampleCfg invalidContextMatch = some ⟨0, 3⟩ :=
  (claim4_chunk_range_content sampleCfg fooContent [] invalidContextMatch samplePath
    ("a.rs".toList) rustName
    ⟨"foo".toList, ⟨0, 3⟩,
      spec_code_context_content ("a.rs".toList) rustName ("foo".toList), []⟩
    rfl rfl).1

/-- Witness for C7: the seeded-empty equation at a concrete structural
language with an empty match list. -/
theorem claim7_determinism_witness :
    (parse_file CodeContextRetriever.new samplePath fooContent
        ⟨rustName, some ⟨some sampleCfg⟩⟩ (some [])).1
      = match runMatches sampleCfg samplePath fooContent rustName [] [] [] with
        | none => RunResult.panicked
        | some documents => RunResult.ok documents :=
  (claim7_determinism CodeContextRetriever.new samplePath fooContent
    ⟨rustName, some ⟨some sampleCfg⟩⟩ (some [])).2 rustName sampleCfg [] (by decide)

/-- C8: a successful extraction, whole-file or structural, never
populates the embedding field: every returned chunk's embedding is
empty. -/
theorem claim8_embedding_empty (self : CodeContextRetriever) (relative_path : RustPath)
    (content : Str) (language : Language) (query_matches : Option (List QueryMatch))
    (documents : List Document)
    (h : (parse_file self relative_path content language query_matches).1
        = RunResult.ok documents) :
    embeddings_empty documents := by
  by_cases hw : language.name ∈ PARSEABLE_ENTIRE_FILE_TYPES
  · have hred : (parse_file self relative_path content language query_matches).1
        = RunResult.ok (_parse_entire_file relative_path language.name content) := by
      simp [parse_file, hw]
    rw [hred] at h
    cases RunResult.ok.inj h
    intro d hd
    simp only [_parse_entire_file, List.mem_singleton] at hd
    subst hd
    rfl
  · cases hg : language.grammar with
    | none =>
      have hred : (parse_file self relative_path content language query_matches).1
          = RunResult.err NO_GRAMMAR_MSG := by simp [parse_file, hw, hg]
      rw [hred] at h
      exact absurd h (by simp)
    | some grammar =>
      cases hc : grammar.embedding_config with
      | none =>
        have hred : (parse_file self relative_path content language query_matches).1
            = RunResult.err NO_EMBEDDING_QUERIES_MSG := by simp [parse_file, hw, hg, hc]
        rw [hred] at h
        exact absurd h (by simp)
      | some cfg =>
        cases hq : query_matches with
        | none =>
          have hred : (parse_file self relative_path content language query_matches).1
              = RunResult.err PARSING_FAILED_MSG := by simp [parse_file, hw, hg, hc, hq]
          rw [hred] at h
          exact absurd h (by simp)
        | some ms =>
          cases hrun : runMatches cfg relative_path content language.name ms [] [] with
          | none =>
            have hred : (parse_file self relative_path content language query_matches).1
                = RunResult.panicked := by simp [parse_file, hw, hg, hc, hq, hrun]
            rw [hred] at h
            exact absurd h (by simp)
          | some ds =>
            have hred : (parse_file self relative_path content language query_matches).1
                = RunResult.ok ds := by simp [parse_file, hw, hg, hc, hq, hrun]
            rw [hred] at h
            have hde : ds = documents := RunResult.ok.inj h
            exact hde ▸ runMatches_embeddings cfg relative_path content language.name
              ms [] [] ds hrun (fun d hd => absurd hd (List.not_mem_nil d))

/-- Witness for C8 at a concrete structural extraction emitting one
chunk. -/
theorem claim8_embedding_empty_witness :
    embeddings_empty [⟨"foo".toList, ⟨0, 3⟩,
      spec_code_context_content ("a.rs".toList) rustName ("foo".toList), []⟩] :=
  claim8_embedding_empty CodeContextRetriever.new samplePath fooContent
    ⟨rustName, some ⟨some noContextCfg⟩⟩ (some [itemNameMatch]) _ rfl

/-- C9: a fresh name capture records its byte range before its text is
sliced: the range is pushed even when the slice fails (in which case no
text is appended), and afterwards every capture with the identical byte
range is suppressed — its iteration is a no-op — with the recorded range
surviving any further processing. -/
theorem claim9_consume_before_slice (cfg : EmbeddingConfig) (content : Str)
    (st : MatchState) (name_ranges : List ByteRange) (cap : Capture)
    (hitem : cap.index ≠ cfg.item_capture_ix) (hname : cap.index = cfg.name_capture_ix)
    (hfresh : cap.byte_range ∉ name_ranges) :
    ((stepCapture cfg content st name_ranges cap).2 = name_ranges ++ [cap.byte_range])
  ∧ (strGet content cap.byte_range = none →
      (stepCapture cfg content st name_ranges cap).1.name = st.name)
  ∧ (∀ (st' : MatchState) (nr' : List ByteRange) (cap' : Capture),
      cap.byte_range ∈ nr' → cap'.index ≠ cfg.item_capture_ix →
      cap'.index = cfg.name_capture_ix → cap'.byte_range = cap.byte_range →
      stepCapture cfg content st' nr' cap' = (st', nr'))
  ∧ (∀ (mat : QueryMatch) (nr' : List ByteRange), cap.byte_range ∈ nr' →
      cap.byte_range ∈ (processMatch cfg content nr' mat).2) := by
  have h := stepCapture_fresh_name cfg content st name_ranges cap hitem hname hfresh
  refine ⟨h.1, ?_, ?_, ?_⟩
  · intro hnone
    rw [h.2, hnone]
  · intro st' nr' cap' hmem hi' hn' hbr'
    exact stepCapture_consumed_name cfg content st' nr' cap' hi' hn'
      (by rw [hbr']; exact hmem)
  · intro mat nr' hmem
    exact mem_processMatch_ranges cfg content nr' mat cap.byte_range hmem

/-- Witness for C9 at a concrete name capture whose range `0..10` cannot
be sliced out of the three-byte content: the range is still recorded. -/
theorem claim9_consume_before_slice_witness :
    (stepCapture noContextCfg fooContent initialMatchState [] ⟨1, ⟨0, 10⟩⟩).2
      = [] ++ [⟨0, 10⟩] :=
  (claim9_consume_before_slice noContextCfg fooContent initialMatchState []
    ⟨1, ⟨0, 10⟩⟩ (by decide) rfl (by decide)).1

/-- C10: with a non-UTF-8 path (`to_str` is `none`), the structural flow
panics exactly when the same call with a valid path would have emitted at
least one chunk — the panic happens at the first emitted chunk, and a
call emitting none returns normally — whereas the whole-file flow uses
the lossy conversion and returns successfully for every path. -/
theorem claim10_non_utf8_path (self : CodeContextRetriever) (p₁ p₂ : RustPath)
    (content language_name path_str : Str) (cfg : EmbeddingConfig)
    (ms : List QueryMatch)
    (h₁ : p₁.to_str = none) (h₂ : p₂.to_str = some path_str)
    (hn : language_name ∉ PARSEABLE_ENTIRE_FILE_TYPES) :
    ((parse_file self p₁ content ⟨language_name, some ⟨some cfg⟩⟩ (some ms)).1
        = RunResult.panicked
      ↔ ∃ documents,
          (parse_file self p₂ content ⟨language_name, some ⟨some cfg⟩⟩ (some ms)).1
            = RunResult.ok documents ∧ documents ≠ [])
  ∧ (∀ (p : RustPath) (language : Language),
      language.name ∈ PARSEABLE_ENTIRE_FILE_TYPES →
      (parse_file self p content language (some ms)).1
        = RunResult.ok (_parse_entire_file p language.name content)) := by
  constructor
  · obtain ⟨extra, hgood, hnil, hcons⟩ :=
      runMatches_path_rel cfg content language_name p₁ p₂ path_str h₁ h₂ ms [] [] []
    have hred₁ : (parse_file self p₁ content ⟨language_name, some ⟨some cfg⟩⟩
          (some ms)).1
        = match runMatches cfg p₁ content language_name ms [] [] with
          | none => RunResult.panicked
          | some documents => RunResult.ok documents := by
      simp [parse_file, hn]
    have hred₂ : (parse_file self p₂ content ⟨language_name, some ⟨some cfg⟩⟩
          (some ms)).1
        = match runMatches cfg p₂ content language_name ms [] [] with
          | none => RunResult.panicked
          | some documents => RunResult.ok documents := by
      simp [parse_file, hn]
    rw [hred₁, hred₂, hgood]
    cases extra with
    | nil =>
      rw [hnil rfl]
      constructor
      · intro hcontra
        exact absurd hcontra (by simp)
      · rintro ⟨docs, hdocs, hne⟩
        have hd : ([] ++ ([] : List Document)) = docs := RunResult.ok.inj hdocs
        rw [← hd] at hne
        exact (hne rfl).elim
    | cons d extra' =>
      rw [hcons (List.cons_ne_nil d extra')]
      constructor
      · intro _
        exact ⟨[] ++ d :: extra', rfl, by simp⟩
      · intro _
        rfl
  · intro p language hw
    simp [parse_file, hw]

/-- Witness for C10: the whole-file flow succeeds on a non-UTF-8 path. -/
theorem claim10_non_utf8_path_witness :
    (parse_file CodeContextRetriever.new badPath fooContent ⟨"TOML".toList, none⟩
        (some [itemNameMatch])).1
      = RunResult.ok (_parse_entire_file badPath ("TOML".toList) fooContent) :=
  (claim10_non_utf8_path CodeContextRetriever.new badPath samplePath fooContent
    rustName ("a.rs".toList) noContextCfg [itemNameMatch] rfl rfl (by decide)).2
    badPath ⟨"TOML".toList, none⟩ (by decide)

end Parsing
